import Mathlib

/-!
Shallow embedding of the liquidation-heatmap engine of LiqMap-Pro.

The engine lives in `src/utils/heatmapMath.ts` (`calculateHeatmapData`) and the
render-pass normalization in `src/components/LiquidationChart.tsx`
(`drawHeatmap`).  JavaScript numbers are modelled as rationals (`ℚ`); the one
transcendental operation, `Math.log10`, is modelled as an explicit function
parameter `lg : ℚ → ℚ`, so every definition stays computable and theorems
quantify over every possible value of the logarithm.  JavaScript's insertion
ordered `Map<number, number>` is modelled as an association list with
first-occurrence lookup and in-place update.
-/

namespace LiqMap

/-- `Candle` from `src/types.ts`: one OHLCV bar.  The engine reads only
`time`, `high`, `low`, `close` and `volume`; `open` is never consulted by
`calculateHeatmapData`, so it is omitted from the embedding. -/
structure Candle where
  time : Int
  high : ℚ
  low : ℚ
  close : ℚ
  volume : ℚ
deriving DecidableEq, Repr

/-- The `type` field of a `LiquidationLevel` (`'long' | 'short'`). -/
inductive LevelType where
  | long : LevelType
  | short : LevelType
deriving DecidableEq, Repr

/-- `LiquidationLevel` from `src/types.ts`.  The `volume` field stores the
log-dampened intensity, exactly as in the source. -/
structure LiquidationLevel where
  price : ℚ
  volume : ℚ
  type : LevelType
  creationTime : Int
deriving DecidableEq, Repr

/-- `HeatmapBucket` from `src/types.ts`: one price bin with aggregated density. -/
structure HeatmapBucket where
  price : ℚ
  density : ℚ
deriving DecidableEq, Repr

/-- `HeatmapSnapshot` from `src/types.ts`: the bucket list at one time step. -/
structure HeatmapSnapshot where
  time : Int
  buckets : List HeatmapBucket
deriving DecidableEq, Repr

/-- `HeatmapCalculationResult` from `src/types.ts`. -/
structure HeatmapCalculationResult where
  snapshots : List HeatmapSnapshot
  globalMaxDensity : ℚ
deriving DecidableEq, Repr

/-- The filter body of step 1 of `calculateHeatmapData`: a level survives the
candle unless it is triggered (long: `candle.low <= lvl.price`, short:
`candle.high >= lvl.price`) or its relative distance from `candle.close`
exceeds 50%. -/
def levelSurvives (candle : Candle) (lvl : LiquidationLevel) : Bool :=
  if lvl.type = LevelType.long ∧ candle.low ≤ lvl.price then false
  else if lvl.type = LevelType.short ∧ candle.high ≥ lvl.price then false
  else if |lvl.price - candle.close| / candle.close > 1 / 2 then false
  else true

/-- The long level pushed in step 2 of `calculateHeatmapData`:
price `close * (1 - 1/leverage)`, intensity `log10(volume + 10)`. -/
def newLongLevel (lg : ℚ → ℚ) (leverage : ℚ) (c : Candle) : LiquidationLevel :=
  { price := c.close * (1 - 1 / leverage)
    volume := lg (c.volume + 10)
    type := LevelType.long
    creationTime := c.time }

/-- The short level pushed in step 2 of `calculateHeatmapData`:
price `close * (1 + 1/leverage)`, intensity `log10(volume + 10)`. -/
def newShortLevel (lg : ℚ → ℚ) (leverage : ℚ) (c : Candle) : LiquidationLevel :=
  { price := c.close * (1 + 1 / leverage)
    volume := lg (c.volume + 10)
    type := LevelType.short
    creationTime := c.time }

/-- Steps 1–2 of the per-candle loop body: purge triggered/far levels, then
append the two new levels of this candle. -/
def updateActive (lg : ℚ → ℚ) (leverage : ℚ) (levels : List LiquidationLevel)
    (candle : Candle) : List LiquidationLevel :=
  levels.filter (levelSurvives candle) ++
    [newLongLevel lg leverage candle, newShortLevel lg leverage candle]

/-- The active-level list after folding `updateActive` over a candle list,
starting from a given list (models the mutable `activeLevels` variable). -/
def activeFoldFrom (lg : ℚ → ℚ) (leverage : ℚ) (levels : List LiquidationLevel)
    (candles : List Candle) : List LiquidationLevel :=
  candles.foldl (updateActive lg leverage) levels

/-- The active-level list after processing a candle list from the initial
empty state. -/
def activeAfter (lg : ℚ → ℚ) (leverage : ℚ) (candles : List Candle) :
    List LiquidationLevel :=
  activeFoldFrom lg leverage [] candles

/-- `Map.get(k) || 0`: value of the first entry with key `k`, `0` if absent. -/
def mapGet (k : ℚ) : List (ℚ × ℚ) → ℚ
  | [] => 0
  | p :: rest => if p.1 = k then p.2 else mapGet k rest

/-- `Map.set(k, v)`: replace the value of the first entry with key `k`, or
append a new entry at the end (JS `Map` iteration is insertion ordered). -/
def mapSet (k v : ℚ) : List (ℚ × ℚ) → List (ℚ × ℚ)
  | [] => [(k, v)]
  | p :: rest => if p.1 = k then (k, v) :: rest else p :: mapSet k v rest

/-- `Math.floor(price / bucketSize) * bucketSize` — the bucket key of a price. -/
def bucketPrice (bucketSize price : ℚ) : ℚ :=
  (⌊price / bucketSize⌋ : ℚ) * bucketSize

/-- Step 3's `bucketMap` loop: fold every active level into the map, adding
its `volume` to the bucket keyed by `bucketPrice`. -/
def buildBucketMap (bucketSize : ℚ) (levels : List LiquidationLevel) :
    List (ℚ × ℚ) :=
  levels.foldl
    (fun m lvl =>
      let bp := bucketPrice bucketSize lvl.price
      mapSet bp (mapGet bp m + lvl.volume) m)
    []

/-- The `bucketMap.forEach` body that pushes `{price, density}` records. -/
def bucketsOfMap (m : List (ℚ × ℚ)) : List HeatmapBucket :=
  m.map (fun p => { price := p.1, density := p.2 })

/-- The `bucketMap.forEach` body that raises `globalMaxDensity` whenever a
density exceeds it. -/
def foldMaxDensity (g : ℚ) (m : List (ℚ × ℚ)) : ℚ :=
  m.foldl (fun acc p => if p.2 > acc then p.2 else acc) g

/-- The candle loop of `calculateHeatmapData`, written as a recursion carrying
the mutable state (`activeLevels`, `globalMaxDensity`); returns the snapshot
list and the final `globalMaxDensity`. -/
def runFrom (lg : ℚ → ℚ) (leverage bucketSize : ℚ) :
    List LiquidationLevel → ℚ → List Candle → List HeatmapSnapshot × ℚ
  | _, gmax, [] => ([], gmax)
  | levels, gmax, candle :: rest =>
    let active := updateActive lg leverage levels candle
    let bucketMap := buildBucketMap bucketSize active
    let r := runFrom lg leverage bucketSize active (foldMaxDensity gmax bucketMap) rest
    ({ time := candle.time, buckets := bucketsOfMap bucketMap } :: r.1, r.2)

/-- `calculateHeatmapData` from `src/utils/heatmapMath.ts` (the source's
default `bucketSize = 20` is passed explicitly by callers of the embedding). -/
def calculateHeatmapData (lg : ℚ → ℚ) (candles : List Candle)
    (leverage bucketSize : ℚ) : HeatmapCalculationResult :=
  let r := runFrom lg leverage bucketSize [] 0 candles
  { snapshots := r.1, globalMaxDensity := r.2 }

/-- Sum of the densities of a snapshot's buckets. -/
def sumDensities (s : HeatmapSnapshot) : ℚ :=
  (s.buckets.map HeatmapBucket.density).sum

/-- Sum of the intensity (`volume`) values of a level list. -/
def sumVolumes (levels : List LiquidationLevel) : ℚ :=
  (levels.map LiquidationLevel.volume).sum

end LiqMap

namespace LiqMap

/-- `runFrom` produces one snapshot per candle. -/
theorem runFrom_length (lg : ℚ → ℚ) (leverage bucketSize : ℚ)
    (levels : List LiquidationLevel) (gmax : ℚ) (candles : List Candle) :
    (runFrom lg leverage bucketSize levels gmax candles).1.length = candles.length := by
  induction candles generalizing levels gmax with
  | nil => rfl
  | cons c rest ih => simp [runFrom, ih]

/-- C8: on the empty candle series `calculateHeatmapData` does not fail: it
returns a result with an empty snapshot list and `globalMaxDensity = 0`. -/
theorem calculateHeatmapData_nil (lg : ℚ → ℚ) (leverage bucketSize : ℚ) :
    calculateHeatmapData lg [] leverage bucketSize =
      { snapshots := [], globalMaxDensity := 0 } := rfl

/-- Sum of the values of an association list (the map's stored densities). -/
def sumValues (m : List (ℚ × ℚ)) : ℚ :=
  (m.map Prod.snd).sum

/-- Adding `v` on top of the current value of key `k` raises the value sum of
the map by exactly `v`, whether or not the key is present. -/
theorem sumValues_mapSet_add (k v : ℚ) (m : List (ℚ × ℚ)) :
    sumValues (mapSet k (mapGet k m + v) m) = sumValues m + v := by
  induction m with
  | nil => simp [mapSet, mapGet, sumValues]
  | cons p rest ih =>
    by_cases h : p.1 = k
    · simp [mapSet, mapGet, h, sumValues]
      ring
    · simp only [mapSet, mapGet, h, if_neg, ite_false]
      simp [sumValues] at ih ⊢
      linarith [ih]

/-- Folding a level list into a bucket map adds the level volumes to the value
sum of the starting map. -/
theorem sumValues_foldBuckets (bucketSize : ℚ) (levels : List LiquidationLevel)
    (m : List (ℚ × ℚ)) :
    sumValues (levels.foldl
        (fun m lvl =>
          let bp := bucketPrice bucketSize lvl.price
          mapSet bp (mapGet bp m + lvl.volume) m) m) =
      sumValues m + sumVolumes levels := by
  induction levels generalizing m with
  | nil => simp [sumVolumes]
  | cons lvl rest ih =>
    simp only [List.foldl_cons]
    rw [ih, sumValues_mapSet_add]
    simp [sumVolumes]
    ring

/-- Density conservation of one aggregation pass: the bucket map's value sum
equals the volume sum of the active levels it was built from. -/
theorem sumValues_buildBucketMap (bucketSize : ℚ) (levels : List LiquidationLevel) :
    sumValues (buildBucketMap bucketSize levels) = sumVolumes levels := by
  have h := sumValues_foldBuckets bucketSize levels []
  simpa [buildBucketMap, sumValues] using h

/-- The density sum over the pushed buckets equals the map's value sum. -/
theorem sumDensities_bucketsOfMap (t : Int) (m : List (ℚ × ℚ)) :
    sumDensities { time := t, buckets := bucketsOfMap m } = sumValues m := by
  simp only [sumDensities, bucketsOfMap, sumValues, List.map_map]
  rfl

/-- Shape of snapshot `i` of `runFrom`: it carries the time of candle `i` and
the buckets aggregated from the active set after processing candles `0..i`
starting at the given level list. -/
theorem runFrom_get (lg : ℚ → ℚ) (leverage bucketSize : ℚ)
    (candles : List Candle) (levels : List LiquidationLevel) (gmax : ℚ)
    (i : ℕ) (h : i < candles.length)
    (h2 : i < (runFrom lg leverage bucketSize levels gmax candles).1.length) :
    (runFrom lg leverage bucketSize levels gmax candles).1.get ⟨i, h2⟩ =
      { time := (candles.get ⟨i, h⟩).time
        buckets := bucketsOfMap (buildBucketMap bucketSize
          (activeFoldFrom lg leverage levels (candles.take (i + 1)))) } := by
  induction candles generalizing levels gmax i with
  | nil => exact absurd h (Nat.not_lt_zero i)
  | cons c rest ih =>
    cases i with
    | zero =>
      simp [runFrom, activeFoldFrom]
    | succ i =>
      have hr : i < rest.length := Nat.lt_of_succ_lt_succ h
      have h2r : i < (runFrom lg leverage bucketSize
          (updateActive lg leverage levels c)
          (foldMaxDensity gmax (buildBucketMap bucketSize
            (updateActive lg leverage levels c))) rest).1.length := by
        rw [runFrom_length]; exact hr
      have := ih (updateActive lg leverage levels c)
        (foldMaxDensity gmax (buildBucketMap bucketSize
          (updateActive lg leverage levels c))) i hr h2r
      simpa [runFrom, activeFoldFrom] using this

/-- C1: for every produced snapshot, the sum of bucket densities equals the
sum of the intensities (`volume`) of all levels active at that step: each
active level contributes its intensity to exactly the bucket keyed by
`floor(price / bucketSize) * bucketSize`, none dropped or double-counted. -/
theorem snapshot_density_conservation (lg : ℚ → ℚ)
    (candles : List Candle) (leverage bucketSize : ℚ) (i : ℕ)
    (h : i < candles.length)
    (h2 : i < (calculateHeatmapData lg candles leverage bucketSize).snapshots.length) :
    sumDensities
        ((calculateHeatmapData lg candles leverage bucketSize).snapshots.get ⟨i, h2⟩) =
      sumVolumes (activeAfter lg leverage (candles.take (i + 1))) := by
  show sumDensities ((runFrom lg leverage bucketSize [] 0 candles).1.get ⟨i, h2⟩) = _
  rw [runFrom_get lg leverage bucketSize candles [] 0 i h h2,
    sumDensities_bucketsOfMap, sumValues_buildBucketMap, activeAfter]

/-- C1 witness: the conservation theorem instantiated on a concrete two-candle
run, every side evaluated. -/
theorem snapshot_density_conservation_witness :
    (1 : ℕ) < ([⟨0, 101, 99, 100, 3⟩, ⟨1, 106, 95, 104, 7⟩] : List Candle).length ∧
      sumDensities
          ((calculateHeatmapData (fun q => q) [⟨0, 101, 99, 100, 3⟩, ⟨1, 106, 95, 104, 7⟩]
              2 20).snapshots.get ⟨1, by decide⟩) =
        sumVolumes (activeAfter (fun q => q) 2
          (([⟨0, 101, 99, 100, 3⟩, ⟨1, 106, 95, 104, 7⟩] : List Candle).take 2)) :=
  ⟨by decide,
    snapshot_density_conservation (fun q => q)
      [⟨0, 101, 99, 100, 3⟩, ⟨1, 106, 95, 104, 7⟩] 2 20 1 (by decide) (by decide)⟩

/-- Taking one more element splits off the element at position `i`. -/
theorem take_succ_get {α : Type} (l : List α) (i : ℕ) (h : i < l.length) :
    l.take (i + 1) = l.take i ++ [l.get ⟨i, h⟩] := by
  induction l generalizing i with
  | nil => cases h
  | cons a t ih =>
    cases i with
    | zero => simp
    | succ i =>
      have ht : i < t.length := Nat.lt_of_succ_lt_succ h
      show a :: t.take (i + 1) = (a :: t.take i) ++ [t.get ⟨i, ht⟩]
      rw [ih i ht]
      rfl

/-- C3: the Level Generator yields exactly two levels per candle, a Long at
`close * (1 - 1/L)` and a Short at `close * (1 + 1/L)`, each with intensity
`log10(volume + 10)`; and on the single candle
`{close: 100, high: 101, low: 99, volume: 0}` with leverage 2 the run yields
one snapshot at the candle's time with two buckets, the one containing price
50 and the one containing price 150, each with density `log10(10) = 1`. -/
theorem level_generator_formula_and_scenario (lg : ℚ → ℚ) (leverage : ℚ)
    (hlev : 0 < leverage) (t : Int) (hlg : lg 10 = 1) :
    (∀ (levels : List LiquidationLevel) (c : Candle),
      updateActive lg leverage levels c =
        levels.filter (levelSurvives c) ++
          [{ price := c.close * (1 - 1 / leverage), volume := lg (c.volume + 10),
             type := LevelType.long, creationTime := c.time },
           { price := c.close * (1 + 1 / leverage), volume := lg (c.volume + 10),
             type := LevelType.short, creationTime := c.time }]) ∧
      calculateHeatmapData lg [⟨t, 101, 99, 100, 0⟩] 2 20 =
        { snapshots := [{ time := t, buckets :=
            [{ price := 40, density := 1 }, { price := 140, density := 1 }] }],
          globalMaxDensity := 1 } ∧
      ((40 : ℚ) ≤ 50 ∧ (50 : ℚ) < 40 + 20) ∧ ((140 : ℚ) ≤ 150 ∧ (150 : ℚ) < 140 + 20) := by
  refine ⟨fun levels c => rfl, ?_, by norm_num, by norm_num⟩
  have h10 : (0 : ℚ) + 10 = 10 := by norm_num
  norm_num [calculateHeatmapData, runFrom, updateActive, newLongLevel, newShortLevel,
    buildBucketMap, mapGet, mapSet, bucketsOfMap, foldMaxDensity, bucketPrice,
    levelSurvives, h10, hlg]

/-- C3 witness: the theorem applied at `lg` constantly `1` (so `lg 10 = 1`),
leverage `2`, candle time `0`. -/
theorem level_generator_formula_and_scenario_witness :
    (0 : ℚ) < 2 ∧ (fun _ : ℚ => (1 : ℚ)) 10 = 1 ∧
      calculateHeatmapData (fun _ => (1 : ℚ)) [⟨0, 101, 99, 100, 0⟩] 2 20 =
        { snapshots := [{ time := 0, buckets :=
            [{ price := 40, density := 1 }, { price := 140, density := 1 }] }],
          globalMaxDensity := 1 } :=
  ⟨by norm_num, rfl,
    (level_generator_formula_and_scenario (fun _ => (1 : ℚ)) 2 (by norm_num) 0 rfl).2.1⟩

/-- C10: the two levels generated at candle `i` are appended after the purge
pass, so they are in the active set of step `i` unconditionally — even if the
candle's own low/high already crosses the new liquidation price, and for any
leverage (including `L < 2`, which puts a level more than 50% from close) —
and snapshot `i` is aggregated from exactly that active set. -/
theorem new_levels_exempt_from_own_candle (lg : ℚ → ℚ) (leverage bucketSize : ℚ)
    (candles : List Candle) (i : ℕ) (h : i < candles.length)
    (h2 : i < (calculateHeatmapData lg candles leverage bucketSize).snapshots.length) :
    newLongLevel lg leverage (candles.get ⟨i, h⟩) ∈
        activeAfter lg leverage (candles.take (i + 1)) ∧
      newShortLevel lg leverage (candles.get ⟨i, h⟩) ∈
        activeAfter lg leverage (candles.take (i + 1)) ∧
      ((calculateHeatmapData lg candles leverage bucketSize).snapshots.get ⟨i, h2⟩).buckets =
        bucketsOfMap (buildBucketMap bucketSize
          (activeAfter lg leverage (candles.take (i + 1)))) := by
  have hact : activeAfter lg leverage (candles.take (i + 1)) =
      updateActive lg leverage (activeAfter lg leverage (candles.take i))
        (candles.get ⟨i, h⟩) := by
    rw [activeAfter, activeFoldFrom, take_succ_get candles i h, List.foldl_append]
    rfl
  refine ⟨?_, ?_, ?_⟩
  · rw [hact, updateActive]
    exact List.mem_append_right _ (by simp)
  · rw [hact, updateActive]
    exact List.mem_append_right _ (by simp)
  · have hget := runFrom_get lg leverage bucketSize candles [] 0 i h h2
    show ((runFrom lg leverage bucketSize [] 0 candles).1.get ⟨i, h2⟩).buckets = _
    rw [hget]
    rfl

/-- C10 witness: a concrete candle whose own low (`49`) crosses its new long
liquidation price (`50`), with the theorem applied at index 0. -/
theorem new_levels_exempt_from_own_candle_witness :
    (0 : ℕ) < ([⟨0, 101, 49, 100, 0⟩] : List Candle).length ∧
      newLongLevel (fun _ => (1 : ℚ)) 2 (([⟨0, 101, 49, 100, 0⟩] : List Candle).get ⟨0, by decide⟩) ∈
        activeAfter (fun _ => (1 : ℚ)) 2 (([⟨0, 101, 49, 100, 0⟩] : List Candle).take 1) :=
  ⟨by decide,
    (new_levels_exempt_from_own_candle (fun _ => (1 : ℚ)) 2 20 [⟨0, 101, 49, 100, 0⟩] 0
      (by decide) (by decide)).1⟩

/-- C6 counterexample: with leverage `-1` (so `L ≤ 0`) the engine does not
refuse to run and reports nothing: it returns an ordinary result whose single
snapshot carries the formula-generated levels, at prices `100*(1-1/(-1)) = 200`
and `100*(1+1/(-1)) = 0`. -/
theorem no_refusal_on_negative_leverage :
    calculateHeatmapData (fun _ => (1 : ℚ)) [⟨0, 101, 99, 100, 0⟩] (-1) 20 =
      { snapshots := [{ time := 0, buckets :=
          [{ price := 200, density := 1 }, { price := 0, density := 1 }] }],
        globalMaxDensity := 1 } := by
  norm_num [calculateHeatmapData, runFrom, updateActive, newLongLevel, newShortLevel,
    buildBucketMap, mapGet, mapSet, bucketsOfMap, foldMaxDensity, bucketPrice,
    levelSurvives]

/-- C6 amended: for `L ≤ 0` the engine neither throws nor refuses: it still
runs to completion, producing one snapshot per candle from the same level
formulas, with no configuration-error report; guarding is left to callers. -/
theorem runs_on_nonpositive_leverage (lg : ℚ → ℚ) (candles : List Candle)
    (leverage bucketSize : ℚ) (hlev : leverage ≤ 0) :
    (calculateHeatmapData lg candles leverage bucketSize).snapshots.length =
      candles.length := by
  show (runFrom lg leverage bucketSize [] 0 candles).1.length = candles.length
  exact runFrom_length lg leverage bucketSize [] 0 candles

/-- C6 amended witness: leverage `-1` on a one-candle series. -/
theorem runs_on_nonpositive_leverage_witness :
    (-1 : ℚ) ≤ 0 ∧
      (calculateHeatmapData (fun _ => (1 : ℚ)) [⟨0, 101, 99, 100, 0⟩] (-1) 20).snapshots.length =
        ([⟨0, 101, 99, 100, 0⟩] : List Candle).length :=
  ⟨by norm_num,
    runs_on_nonpositive_leverage (fun _ => (1 : ℚ)) [⟨0, 101, 99, 100, 0⟩] (-1) 20 (by norm_num)⟩

/-- The per-bucket body of `drawHeatmap`'s inner loop
(`src/components/LiquidationChart.tsx`): `none` models `continue` (bucket
suppressed), `some level` models drawing with the given display level. -/
def bucketRenderLevel (noiseFilter sensitivity effectiveMaxDensity density : ℚ) :
    Option ℚ :=
  let rawNormalizedDensity := density / effectiveMaxDensity
  if rawNormalizedDensity < noiseFilter then none
  else
    let effectiveDensity := rawNormalizedDensity * sensitivity
    some (if effectiveDensity > 1 then 1 else effectiveDensity)

/-- C5 counterexample: a bucket whose ratio `density/effectiveMax = 1/2`
exactly equals `noiseFilter = 1/2` is drawn (at level `1/2`), not suppressed:
the source's comparison `raw < noiseFilter` keeps the boundary bucket. -/
theorem threshold_bucket_drawn :
    bucketRenderLevel (1 / 2) 1 2 1 = some (1 / 2) := by
  norm_num [bucketRenderLevel]

/-- C5 amended: a bucket is suppressed exactly when `density/effectiveMax`
is strictly below `noiseFilter` (the boundary ratio is drawn), and a drawn
bucket's display level is `min(1, (density/effectiveMax) * sensitivity)`. -/
theorem bucketRenderLevel_spec (noiseFilter sensitivity effectiveMaxDensity density : ℚ) :
    (bucketRenderLevel noiseFilter sensitivity effectiveMaxDensity density = none ↔
        density / effectiveMaxDensity < noiseFilter) ∧
      (noiseFilter ≤ density / effectiveMaxDensity →
        bucketRenderLevel noiseFilter sensitivity effectiveMaxDensity density =
          some (min 1 (density / effectiveMaxDensity * sensitivity))) := by
  constructor
  · by_cases h : density / effectiveMaxDensity < noiseFilter <;>
      simp [bucketRenderLevel, h]
  · intro hge
    have h : ¬ density / effectiveMaxDensity < noiseFilter := not_lt.mpr hge
    rcases lt_or_ge 1 (density / effectiveMaxDensity * sensitivity) with h1 | h1
    · simp [bucketRenderLevel, h, h1, min_eq_left h1.le]
    · have h2 : ¬ density / effectiveMaxDensity * sensitivity > 1 := not_lt.mpr h1
      simp [bucketRenderLevel, h, h2, min_eq_right h1]

/-- C5 amended witness: ratio `1/2` against `noiseFilter = 1/2`, sensitivity
`2`: drawn at level `min(1, 1) = 1`. -/
theorem bucketRenderLevel_spec_witness :
    (1 / 2 : ℚ) ≤ 1 / 2 ∧
      bucketRenderLevel (1 / 2) 2 2 1 = some (min 1 (1 / 2 * 2)) :=
  ⟨le_refl _, (bucketRenderLevel_spec (1 / 2) 2 2 1).2 (by norm_num)⟩

/-- The visible-bucket scan of `drawHeatmap` under `localNormalization`: the
densities of the buckets whose snapshot index lies in `[startIndex, endIndex]`
(out-of-range indexes are skipped, as `if (!snapshot) continue` does) and whose
price lies in `[minVisPrice, maxVisPrice]`. -/
def visibleDensities (heatmapData : List HeatmapSnapshot) (startIndex endIndex : ℕ)
    (minVisPrice maxVisPrice : ℚ) : List ℚ :=
  (((heatmapData.drop startIndex).take (endIndex + 1 - startIndex)).map
      (fun s => (s.buckets.filter
          (fun b => decide (minVisPrice ≤ b.price) && decide (b.price ≤ maxVisPrice))).map
        HeatmapBucket.density)).flatten

/-- The `let max = 0; ... if (b.density > max) max = b.density` accumulation
over the visible buckets. -/
def localMaxDensity (heatmapData : List HeatmapSnapshot) (startIndex endIndex : ℕ)
    (minVisPrice maxVisPrice : ℚ) : ℚ :=
  (visibleDensities heatmapData startIndex endIndex minVisPrice maxVisPrice).foldl
    (fun mx d => if d > mx then d else mx) 0

/-- `let effectiveMaxDensity = globalMaxDensity; if (localNormalization) {...;
if (max > 0) effectiveMaxDensity = max }` — the normalizer's denominator when
local normalization is enabled. -/
def effectiveMaxDensity (globalMaxDensity : ℚ) (heatmapData : List HeatmapSnapshot)
    (startIndex endIndex : ℕ) (minVisPrice maxVisPrice : ℚ) : ℚ :=
  let mx := localMaxDensity heatmapData startIndex endIndex minVisPrice maxVisPrice
  if mx > 0 then mx else globalMaxDensity

/-- The running `if d > mx then d else mx` fold never goes below its start. -/
theorem foldl_vmax_ge_init (a : ℚ) (l : List ℚ) :
    a ≤ l.foldl (fun mx d => if d > mx then d else mx) a := by
  induction l generalizing a with
  | nil => exact le_refl a
  | cons x t ih =>
    refine le_trans ?_ (ih (if x > a then x else a))
    by_cases h : x > a
    · simp only [if_pos h]
      exact le_of_lt h
    · simp only [if_neg h]
      exact le_refl a

/-- The running `if d > mx then d else mx` fold bounds every list element. -/
theorem foldl_vmax_ge_mem (a : ℚ) (l : List ℚ) (d : ℚ) (hd : d ∈ l) :
    d ≤ l.foldl (fun mx d => if d > mx then d else mx) a := by
  induction l generalizing a with
  | nil => cases hd
  | cons x t ih =>
    rcases List.mem_cons.mp hd with h | h
    · subst h
      refine le_trans ?_ (foldl_vmax_ge_init (if d > a then d else a) t)
      by_cases hxa : d > a
      · simp only [if_pos hxa]
        exact le_refl d
      · simp only [if_neg hxa]
        exact not_lt.mp hxa
    · exact ih _ h

/-- The running `if d > mx then d else mx` fold returns its start or a list
element. -/
theorem foldl_vmax_eq_init_or_mem (a : ℚ) (l : List ℚ) :
    l.foldl (fun mx d => if d > mx then d else mx) a = a ∨
      l.foldl (fun mx d => if d > mx then d else mx) a ∈ l := by
  induction l generalizing a with
  | nil => exact Or.inl rfl
  | cons x t ih =>
    simp only [List.foldl_cons]
    rcases ih (if x > a then x else a) with h | h
    · by_cases hxa : x > a
      · right
        rw [h, if_pos hxa]
        exact List.mem_cons_self x t
      · left
        rw [h, if_neg hxa]
    · right
      exact List.mem_cons_of_mem x h

/-- C9: with local normalization and nonnegative densities, the normalizer's
`effectiveMaxDensity` either is the maximum density of the visible-bucket
selection (a member of it bounding every member), or — when that selection is
empty or all-zero — falls back to `globalMaxDensity`, so it never divides by a
locally computed 0. -/
theorem effectiveMax_local_or_global (globalMaxDensity : ℚ)
    (heatmapData : List HeatmapSnapshot) (startIndex endIndex : ℕ)
    (minVisPrice maxVisPrice : ℚ)
    (h0 : ∀ d ∈ visibleDensities heatmapData startIndex endIndex minVisPrice maxVisPrice,
      0 ≤ d) :
    (effectiveMaxDensity globalMaxDensity heatmapData startIndex endIndex
          minVisPrice maxVisPrice = globalMaxDensity ∧
        ∀ d ∈ visibleDensities heatmapData startIndex endIndex minVisPrice maxVisPrice,
          d = 0) ∨
      (effectiveMaxDensity globalMaxDensity heatmapData startIndex endIndex
            minVisPrice maxVisPrice ∈
          visibleDensities heatmapData startIndex endIndex minVisPrice maxVisPrice ∧
        ∀ d ∈ visibleDensities heatmapData startIndex endIndex minVisPrice maxVisPrice,
          d ≤ effectiveMaxDensity globalMaxDensity heatmapData startIndex endIndex
            minVisPrice maxVisPrice) := by
  by_cases hpos :
    localMaxDensity heatmapData startIndex endIndex minVisPrice maxVisPrice > 0
  · right
    have heq : effectiveMaxDensity globalMaxDensity heatmapData startIndex endIndex
        minVisPrice maxVisPrice =
        localMaxDensity heatmapData startIndex endIndex minVisPrice maxVisPrice := by
      rw [effectiveMaxDensity, if_pos hpos]
    constructor
    · rw [heq]
      rcases foldl_vmax_eq_init_or_mem 0
          (visibleDensities heatmapData startIndex endIndex minVisPrice maxVisPrice) with
        h | h
      · rw [localMaxDensity] at hpos
        rw [h] at hpos
        exact absurd hpos (lt_irrefl 0)
      · exact h
    · intro d hd
      rw [heq]
      exact foldl_vmax_ge_mem 0 _ d hd
  · left
    have heq : effectiveMaxDensity globalMaxDensity heatmapData startIndex endIndex
        minVisPrice maxVisPrice = globalMaxDensity := by
      rw [effectiveMaxDensity, if_neg hpos]
    refine ⟨heq, fun d hd => ?_⟩
    have h1 : d ≤ localMaxDensity heatmapData startIndex endIndex minVisPrice maxVisPrice :=
      foldl_vmax_ge_mem 0 _ d hd
    have h2 : 0 ≤ d := h0 d hd
    have h3 :
        localMaxDensity heatmapData startIndex endIndex minVisPrice maxVisPrice ≤ 0 :=
      not_lt.mp hpos
    linarith

/-- C9 witness: one visible bucket of density 5 in range, `globalMaxDensity`
7: the local maximum 5 is selected and bounds the selection. -/
theorem effectiveMax_local_or_global_witness :
    (∀ d ∈ visibleDensities [{ time := 0, buckets := [{ price := 10, density := 5 }] }]
        0 0 0 20, (0:ℚ) ≤ d) ∧
      ((effectiveMaxDensity 7 [{ time := 0, buckets := [{ price := 10, density := 5 }] }]
            0 0 0 20 = 7 ∧
          ∀ d ∈ visibleDensities [{ time := 0, buckets := [{ price := 10, density := 5 }] }]
            0 0 0 20, d = 0) ∨
        (effectiveMaxDensity 7 [{ time := 0, buckets := [{ price := 10, density := 5 }] }]
              0 0 0 20 ∈
            visibleDensities [{ time := 0, buckets := [{ price := 10, density := 5 }] }]
              0 0 0 20 ∧
          ∀ d ∈ visibleDensities [{ time := 0, buckets := [{ price := 10, density := 5 }] }]
            0 0 0 20,
            d ≤ effectiveMaxDensity 7
              [{ time := 0, buckets := [{ price := 10, density := 5 }] }] 0 0 0 20)) := by
  have h0 : ∀ d ∈ visibleDensities
      [{ time := 0, buckets := [{ price := 10, density := 5 }] }] 0 0 0 20, (0:ℚ) ≤ d := by
    intro d hd
    norm_num [visibleDensities] at hd
    rw [hd]
    norm_num
  exact ⟨h0, effectiveMax_local_or_global 7
    [{ time := 0, buckets := [{ price := 10, density := 5 }] }] 0 0 0 20 h0⟩

/-- The `if (density > globalMaxDensity)` fold never goes below its start. -/
theorem foldMaxDensity_ge_init (g : ℚ) (m : List (ℚ × ℚ)) :
    g ≤ foldMaxDensity g m := by
  rw [foldMaxDensity]
  induction m generalizing g with
  | nil => exact le_refl g
  | cons p t ih =>
    refine le_trans ?_ (ih (if p.2 > g then p.2 else g))
    by_cases h : p.2 > g
    · simp only [if_pos h]
      exact le_of_lt h
    · simp only [if_neg h]
      exact le_refl g

/-- The `if (density > globalMaxDensity)` fold bounds every stored density. -/
theorem foldMaxDensity_ge_mem (g : ℚ) (m : List (ℚ × ℚ)) (p : ℚ × ℚ) (hp : p ∈ m) :
    p.2 ≤ foldMaxDensity g m := by
  rw [foldMaxDensity]
  induction m generalizing g with
  | nil => cases hp
  | cons q t ih =>
    rcases List.mem_cons.mp hp with h | h
    · subst h
      refine le_trans ?_ (foldMaxDensity_ge_init (if p.2 > g then p.2 else g) t)
      by_cases hpg : p.2 > g
      · simp only [if_pos hpg]
        exact le_refl _
      · simp only [if_neg hpg]
        exact not_lt.mp hpg
    · exact ih _ h

/-- The `if (density > globalMaxDensity)` fold returns its start or a stored
density. -/
theorem foldMaxDensity_eq_init_or_mem (g : ℚ) (m : List (ℚ × ℚ)) :
    foldMaxDensity g m = g ∨ ∃ p ∈ m, p.2 = foldMaxDensity g m := by
  rw [foldMaxDensity]
  induction m generalizing g with
  | nil => exact Or.inl rfl
  | cons q t ih =>
    simp only [List.foldl_cons]
    rcases ih (if q.2 > g then q.2 else g) with h | h
    · by_cases hqg : q.2 > g
      · right
        exact ⟨q, List.mem_cons_self q t, by rw [h, if_pos hqg]⟩
      · left
        rw [h, if_neg hqg]
    · right
      obtain ⟨p, hp, hpe⟩ := h
      exact ⟨p, List.mem_cons_of_mem q hp, hpe⟩

/-- The running `globalMaxDensity` never decreases over the remaining run. -/
theorem runFrom_gmax_le (lg : ℚ → ℚ) (leverage bucketSize : ℚ)
    (candles : List Candle) (levels : List LiquidationLevel) (gmax : ℚ) :
    gmax ≤ (runFrom lg leverage bucketSize levels gmax candles).2 := by
  induction candles generalizing levels gmax with
  | nil => exact le_refl gmax
  | cons c rest ih =>
    simp only [runFrom]
    exact le_trans (foldMaxDensity_ge_init gmax _) (ih _ _)

/-- Every density of every snapshot produced by `runFrom` is bounded by the
final `globalMaxDensity`. -/
theorem runFrom_density_le_gmax (lg : ℚ → ℚ) (leverage bucketSize : ℚ)
    (candles : List Candle) :
    ∀ (levels : List LiquidationLevel) (gmax : ℚ)
      (s : HeatmapSnapshot), s ∈ (runFrom lg leverage bucketSize levels gmax candles).1 →
      ∀ b ∈ s.buckets, b.density ≤ (runFrom lg leverage bucketSize levels gmax candles).2 := by
  induction candles with
  | nil => intro levels gmax s hs; cases hs
  | cons c rest ih =>
    intro levels gmax s hs b hb
    simp only [runFrom] at hs ⊢
    rcases List.mem_cons.mp hs with h | h
    · subst h
      simp only [bucketsOfMap, List.mem_map] at hb
      obtain ⟨p, hp, hpe⟩ := hb
      have h1 : b.density = p.2 := by rw [← hpe]
      rw [h1]
      exact le_trans (foldMaxDensity_ge_mem gmax _ p hp)
        (runFrom_gmax_le lg leverage bucketSize rest _ _)
    · exact ih _ _ s h b hb

/-- The final `globalMaxDensity` of `runFrom` is its starting value or is
attained by a bucket of a produced snapshot. -/
theorem runFrom_gmax_attained (lg : ℚ → ℚ) (leverage bucketSize : ℚ)
    (candles : List Candle) :
    ∀ (levels : List LiquidationLevel) (gmax : ℚ),
      (runFrom lg leverage bucketSize levels gmax candles).2 = gmax ∨
        ∃ s ∈ (runFrom lg leverage bucketSize levels gmax candles).1,
          ∃ b ∈ s.buckets, b.density = (runFrom lg leverage bucketSize levels gmax candles).2 := by
  induction candles with
  | nil => intro levels gmax; exact Or.inl rfl
  | cons c rest ih =>
    intro levels gmax
    simp only [runFrom]
    set active := updateActive lg leverage levels c with hactive
    set m := buildBucketMap bucketSize active with hm
    rcases ih active (foldMaxDensity gmax m) with h | h
    · rcases foldMaxDensity_eq_init_or_mem gmax m with h2 | h2
      · left
        rw [h, h2]
      · right
        obtain ⟨p, hp, hpe⟩ := h2
        refine ⟨{ time := c.time, buckets := bucketsOfMap m }, List.mem_cons_self _ _,
          ⟨{ price := p.1, density := p.2 }, ?_, ?_⟩⟩
        · simp only [bucketsOfMap, List.mem_map]
          exact ⟨p, hp, rfl⟩
        · rw [h, ← hpe]
    · right
      obtain ⟨s, hs, b, hb, hbe⟩ := h
      exact ⟨s, List.mem_cons_of_mem _ hs, b, hb, hbe⟩

/-- Unfolding `runFrom` on a cons cell. -/
theorem runFrom_cons (lg : ℚ → ℚ) (leverage bucketSize : ℚ)
    (levels : List LiquidationLevel) (gmax : ℚ) (c : Candle) (cs : List Candle) :
    runFrom lg leverage bucketSize levels gmax (c :: cs) =
      ({ time := c.time,
          buckets := bucketsOfMap (buildBucketMap bucketSize (updateActive lg leverage levels c)) } ::
          (runFrom lg leverage bucketSize (updateActive lg leverage levels c)
            (foldMaxDensity gmax (buildBucketMap bucketSize (updateActive lg leverage levels c)))
            cs).1,
        (runFrom lg leverage bucketSize (updateActive lg leverage levels c)
          (foldMaxDensity gmax (buildBucketMap bucketSize (updateActive lg leverage levels c)))
          cs).2) := rfl

/-- Splitting a run at a prefix: the second half starts from the first half's
final state. -/
theorem runFrom_append (lg : ℚ → ℚ) (leverage bucketSize : ℚ)
    (cs₁ cs₂ : List Candle) (levels : List LiquidationLevel) (gmax : ℚ) :
    runFrom lg leverage bucketSize levels gmax (cs₁ ++ cs₂) =
      ((runFrom lg leverage bucketSize levels gmax cs₁).1 ++
          (runFrom lg leverage bucketSize (activeFoldFrom lg leverage levels cs₁)
            (runFrom lg leverage bucketSize levels gmax cs₁).2 cs₂).1,
        (runFrom lg leverage bucketSize (activeFoldFrom lg leverage levels cs₁)
          (runFrom lg leverage bucketSize levels gmax cs₁).2 cs₂).2) := by
  induction cs₁ generalizing levels gmax with
  | nil => simp [runFrom, activeFoldFrom]
  | cons c rest ih =>
    have ha : activeFoldFrom lg leverage levels (c :: rest) =
        activeFoldFrom lg leverage (updateActive lg leverage levels c) rest := rfl
    rw [List.cons_append, runFrom_cons, runFrom_cons, ih, ha]
    rfl

/-- Membership in a `mapSet` result: the written entry or an original one. -/
theorem mem_mapSet (k v : ℚ) (m : List (ℚ × ℚ)) (p : ℚ × ℚ)
    (hp : p ∈ mapSet k v m) : p = (k, v) ∨ p ∈ m := by
  induction m with
  | nil =>
    rw [mapSet] at hp
    rcases List.mem_singleton.mp hp with h
    exact Or.inl h
  | cons q t ih =>
    rw [mapSet] at hp
    by_cases h : q.1 = k
    · rw [if_pos h] at hp
      rcases List.mem_cons.mp hp with h2 | h2
      · exact Or.inl h2
      · exact Or.inr (List.mem_cons_of_mem q h2)
    · rw [if_neg h] at hp
      rcases List.mem_cons.mp hp with h2 | h2
      · exact Or.inr (h2 ▸ List.mem_cons_self q t)
      · rcases ih h2 with h3 | h3
        · exact Or.inl h3
        · exact Or.inr (List.mem_cons_of_mem q h3)

/-- A lookup in a map with nonnegative values is nonnegative. -/
theorem mapGet_nonneg (k : ℚ) (m : List (ℚ × ℚ)) (h : ∀ p ∈ m, 0 ≤ p.2) :
    0 ≤ mapGet k m := by
  induction m with
  | nil => exact le_refl 0
  | cons q t ih =>
    rw [mapGet]
    by_cases hq : q.1 = k
    · rw [if_pos hq]
      exact h q (List.mem_cons_self q t)
    · rw [if_neg hq]
      exact ih (fun p hp => h p (List.mem_cons_of_mem q hp))

/-- Folding nonnegative volumes into a map with nonnegative values keeps
every stored value nonnegative. -/
theorem foldBuckets_values_nonneg (bucketSize : ℚ) (levels : List LiquidationLevel) :
    ∀ (m : List (ℚ × ℚ)), (∀ p ∈ m, 0 ≤ p.2) → (∀ lvl ∈ levels, 0 ≤ lvl.volume) →
      ∀ p ∈ levels.foldl
        (fun m lvl =>
          let bp := bucketPrice bucketSize lvl.price
          mapSet bp (mapGet bp m + lvl.volume) m) m, 0 ≤ p.2 := by
  induction levels with
  | nil => intro m hm _ p hp; exact hm p hp
  | cons lvl rest ih =>
    intro m hm hv p hp
    simp only [List.foldl_cons] at hp
    refine ih _ ?_ (fun l hl => hv l (List.mem_cons_of_mem lvl hl)) p hp
    intro q hq
    rcases mem_mapSet _ _ _ q hq with h | h
    · rw [h]
      have h1 := mapGet_nonneg (bucketPrice bucketSize lvl.price) m hm
      have h2 := hv lvl (List.mem_cons_self lvl rest)
      simpa using add_nonneg h1 h2
    · exact hm q h

/-- If the intensity function is nonnegative, every level in the updated
active set has nonnegative volume. -/
theorem updateActive_volumes_nonneg (lg : ℚ → ℚ) (leverage : ℚ)
    (hlg : ∀ q, 0 ≤ lg q) (levels : List LiquidationLevel) (c : Candle)
    (h : ∀ lvl ∈ levels, 0 ≤ lvl.volume) :
    ∀ lvl ∈ updateActive lg leverage levels c, 0 ≤ lvl.volume := by
  intro lvl hlvl
  rcases List.mem_append.mp hlvl with h1 | h1
  · exact h lvl (List.mem_filter.mp h1).1
  · rcases List.mem_cons.mp h1 with h2 | h2
    · rw [h2]
      exact hlg _
    · rcases List.mem_singleton.mp h2 with h3
      rw [h3]
      exact hlg _

/-- With a nonnegative intensity function every produced density is
nonnegative. -/
theorem runFrom_densities_nonneg (lg : ℚ → ℚ) (leverage bucketSize : ℚ)
    (hlg : ∀ q, 0 ≤ lg q) (candles : List Candle) :
    ∀ (levels : List LiquidationLevel) (gmax : ℚ),
      (∀ lvl ∈ levels, 0 ≤ lvl.volume) →
      ∀ s ∈ (runFrom lg leverage bucketSize levels gmax candles).1,
        ∀ b ∈ s.buckets, 0 ≤ b.density := by
  induction candles with
  | nil => intro levels gmax _ s hs; cases hs
  | cons c rest ih =>
    intro levels gmax hv s hs b hb
    simp only [runFrom] at hs
    rcases List.mem_cons.mp hs with h | h
    · subst h
      simp only [bucketsOfMap, List.mem_map] at hb
      obtain ⟨p, hp, hpe⟩ := hb
      have h1 : b.density = p.2 := by rw [← hpe]
      rw [h1]
      exact foldBuckets_values_nonneg bucketSize _ [] (by intro q hq; cases hq)
        (updateActive_volumes_nonneg lg leverage hlg levels c hv) p hp
    · exact ih _ _ (updateActive_volumes_nonneg lg leverage hlg levels c hv) s h b hb

/-- C2: with a nonnegative intensity function, `globalMaxDensity` bounds every
bucket density of every snapshot, is `0` when no bucket exists, is attained by
some bucket whenever any bucket exists — i.e. it equals the maximum density
over all buckets (`0` when there is none) — and the running value is
monotonically non-decreasing as successive snapshots are folded in. -/
theorem globalMaxDensity_spec (lg : ℚ → ℚ) (candles : List Candle)
    (leverage bucketSize : ℚ) (hlg : ∀ q, 0 ≤ lg q) :
    (∀ s ∈ (calculateHeatmapData lg candles leverage bucketSize).snapshots,
        ∀ b ∈ s.buckets,
          b.density ≤ (calculateHeatmapData lg candles leverage bucketSize).globalMaxDensity) ∧
      ((∀ s ∈ (calculateHeatmapData lg candles leverage bucketSize).snapshots,
          s.buckets = []) →
        (calculateHeatmapData lg candles leverage bucketSize).globalMaxDensity = 0) ∧
      ((∃ s ∈ (calculateHeatmapData lg candles leverage bucketSize).snapshots,
          s.buckets ≠ []) →
        ∃ s ∈ (calculateHeatmapData lg candles leverage bucketSize).snapshots,
          ∃ b ∈ s.buckets,
            b.density = (calculateHeatmapData lg candles leverage bucketSize).globalMaxDensity) ∧
      (∀ i j : ℕ, i ≤ j →
        (calculateHeatmapData lg (candles.take i) leverage bucketSize).globalMaxDensity ≤
          (calculateHeatmapData lg (candles.take j) leverage bucketSize).globalMaxDensity) := by
  refine ⟨?_, ?_, ?_, ?_⟩
  · intro s hs b hb
    exact runFrom_density_le_gmax lg leverage bucketSize candles [] 0 s hs b hb
  · intro hempty
    rcases runFrom_gmax_attained lg leverage bucketSize candles [] 0 with h | h
    · exact h
    · obtain ⟨s, hs, b, hb, _⟩ := h
      rw [hempty s hs] at hb
      cases hb
  · intro hsome
    rcases runFrom_gmax_attained lg leverage bucketSize candles [] 0 with h | h
    · obtain ⟨s0, hs0, hne⟩ := hsome
      obtain ⟨b, hb⟩ := List.exists_mem_of_ne_nil s0.buckets hne
      have h1 : b.density ≤ 0 := by
        have := runFrom_density_le_gmax lg leverage bucketSize candles [] 0 s0 hs0 b hb
        rw [h] at this
        exact this
      have h2 : 0 ≤ b.density :=
        runFrom_densities_nonneg lg leverage bucketSize hlg candles [] 0
          (by intro l hl; cases hl) s0 hs0 b hb
      exact ⟨s0, hs0, b, hb, by
        show b.density = (runFrom lg leverage bucketSize [] 0 candles).2
        rw [h]
        linarith⟩
    · exact h
  · intro i j hij
    have hsplit : candles.take j = candles.take i ++ (candles.drop i).take (j - i) := by
      have : i + (j - i) = j := Nat.add_sub_cancel' hij
      rw [← this, List.take_add, Nat.add_sub_cancel_left]
    show (runFrom lg leverage bucketSize [] 0 (candles.take i)).2 ≤
      (runFrom lg leverage bucketSize [] 0 (candles.take j)).2
    rw [hsplit, runFrom_append]
    exact runFrom_gmax_le lg leverage bucketSize _ _ _

/-- C2 witness: the specification applied to a concrete two-candle run with
the constant intensity function 1. -/
theorem globalMaxDensity_spec_witness :
    (∀ q : ℚ, (0 : ℚ) ≤ (fun _ : ℚ => (1 : ℚ)) q) ∧
      ((∀ s ∈ (calculateHeatmapData (fun _ => (1 : ℚ))
            [⟨0, 101, 99, 100, 3⟩, ⟨1, 106, 95, 104, 7⟩] 2 20).snapshots,
          ∀ b ∈ s.buckets,
            b.density ≤ (calculateHeatmapData (fun _ => (1 : ℚ))
              [⟨0, 101, 99, 100, 3⟩, ⟨1, 106, 95, 104, 7⟩] 2 20).globalMaxDensity) ∧
        ((∀ s ∈ (calculateHeatmapData (fun _ => (1 : ℚ))
              [⟨0, 101, 99, 100, 3⟩, ⟨1, 106, 95, 104, 7⟩] 2 20).snapshots,
            s.buckets = []) →
          (calculateHeatmapData (fun _ => (1 : ℚ))
            [⟨0, 101, 99, 100, 3⟩, ⟨1, 106, 95, 104, 7⟩] 2 20).globalMaxDensity = 0) ∧
        ((∃ s ∈ (calculateHeatmapData (fun _ => (1 : ℚ))
              [⟨0, 101, 99, 100, 3⟩, ⟨1, 106, 95, 104, 7⟩] 2 20).snapshots,
            s.buckets ≠ []) →
          ∃ s ∈ (calculateHeatmapData (fun _ => (1 : ℚ))
              [⟨0, 101, 99, 100, 3⟩, ⟨1, 106, 95, 104, 7⟩] 2 20).snapshots,
            ∃ b ∈ s.buckets,
              b.density = (calculateHeatmapData (fun _ => (1 : ℚ))
                [⟨0, 101, 99, 100, 3⟩, ⟨1, 106, 95, 104, 7⟩] 2 20).globalMaxDensity) ∧
        (∀ i j : ℕ, i ≤ j →
          (calculateHeatmapData (fun _ => (1 : ℚ))
              (([⟨0, 101, 99, 100, 3⟩, ⟨1, 106, 95, 104, 7⟩] : List Candle).take i)
              2 20).globalMaxDensity ≤
            (calculateHeatmapData (fun _ => (1 : ℚ))
              (([⟨0, 101, 99, 100, 3⟩, ⟨1, 106, 95, 104, 7⟩] : List Candle).take j)
              2 20).globalMaxDensity)) :=
  ⟨fun q => by norm_num,
    globalMaxDensity_spec (fun _ => (1 : ℚ)) [⟨0, 101, 99, 100, 3⟩, ⟨1, 106, 95, 104, 7⟩]
      2 20 (fun q => by norm_num)⟩

/-- Processing more candles composes `updateActive` steps. -/
theorem activeFoldFrom_append (lg : ℚ → ℚ) (leverage : ℚ)
    (levels : List LiquidationLevel) (cs₁ cs₂ : List Candle) :
    activeFoldFrom lg leverage levels (cs₁ ++ cs₂) =
      activeFoldFrom lg leverage (activeFoldFrom lg leverage levels cs₁) cs₂ := by
  simp [activeFoldFrom, List.foldl_append]

/-- Membership in an updated active set: a surviving old level or one of the
two freshly generated levels. -/
theorem mem_updateActive (lg : ℚ → ℚ) (leverage : ℚ)
    (levels : List LiquidationLevel) (c : Candle) (lvl : LiquidationLevel)
    (h : lvl ∈ updateActive lg leverage levels c) :
    lvl ∈ levels ∨ lvl = newLongLevel lg leverage c ∨ lvl = newShortLevel lg leverage c := by
  rcases List.mem_append.mp h with h1 | h1
  · exact Or.inl (List.mem_filter.mp h1).1
  · rcases List.mem_cons.mp h1 with h2 | h2
    · exact Or.inr (Or.inl h2)
    · exact Or.inr (Or.inr (List.mem_singleton.mp h2))

/-- A long level triggered by the candle (`low ≤ price`) is purged by the
step, and — unless the candle just created it — is not in the updated set. -/
theorem not_mem_updateActive_of_triggered (lg : ℚ → ℚ) (leverage : ℚ)
    (levels : List LiquidationLevel) (c : Candle) (lvl : LiquidationLevel)
    (htype : lvl.type = LevelType.long) (htrig : c.low ≤ lvl.price)
    (htime : lvl.creationTime ≠ c.time) :
    lvl ∉ updateActive lg leverage levels c := by
  intro hmem
  rcases List.mem_append.mp hmem with h1 | h1
  · have hs := (List.mem_filter.mp h1).2
    rw [levelSurvives, if_pos ⟨htype, htrig⟩] at hs
    cases hs
  · rcases List.mem_cons.mp h1 with h2 | h2
    · exact htime (by rw [h2]; rfl)
    · have h3 := List.mem_singleton.mp h2
      rw [h3] at htype
      cases htype

/-- A level absent from the active set stays absent as long as no processed
candle recreates an identical level. -/
theorem not_mem_activeFoldFrom (lg : ℚ → ℚ) (leverage : ℚ) (cs : List Candle) :
    ∀ (levels : List LiquidationLevel) (lvl : LiquidationLevel), lvl ∉ levels →
      (∀ c ∈ cs, lvl ≠ newLongLevel lg leverage c ∧ lvl ≠ newShortLevel lg leverage c) →
      lvl ∉ activeFoldFrom lg leverage levels cs := by
  induction cs with
  | nil => intro levels lvl habs _ hmem; exact habs hmem
  | cons c rest ih =>
    intro levels lvl habs hnew hmem
    have hstep : lvl ∉ updateActive lg leverage levels c := by
      intro hm
      rcases mem_updateActive lg leverage levels c lvl hm with h | h | h
      · exact habs h
      · exact (hnew c (List.mem_cons_self c rest)).1 h
      · exact (hnew c (List.mem_cons_self c rest)).2 h
    exact ih (updateActive lg leverage levels c) lvl hstep
      (fun c' hc' => hnew c' (List.mem_cons_of_mem c hc')) hmem

/-- The element at a position below `n` is in the `n`-prefix. -/
theorem get_mem_take {α : Type} (l : List α) (i n : ℕ) (hi : i < l.length)
    (hin : i < n) : l.get ⟨i, hi⟩ ∈ l.take n := by
  induction l generalizing i n with
  | nil => cases hi
  | cons a t ih =>
    cases n with
    | zero => cases hin
    | succ n =>
      cases i with
      | zero => exact List.mem_cons_self a (t.take n)
      | succ i =>
        have ht : i < t.length := Nat.lt_of_succ_lt_succ hi
        exact List.mem_cons_of_mem a (ih i n ht (Nat.lt_of_succ_lt_succ hin))

/-- C4: in a run over candles with strictly ascending times, once the Long
level created at candle `i` is triggered by candle `j > i` (its `low` reaches
the level's price), the level is absent from the active set — hence from every
bucket contribution — after every step `k ≥ j`: a triggered level never
reappears. -/
theorem triggered_long_level_never_reappears (lg : ℚ → ℚ) (leverage : ℚ)
    (candles : List Candle)
    (hsorted : candles.Pairwise (fun a b => a.time < b.time))
    (i j k : ℕ) (hi : i < candles.length) (hj : j < candles.length)
    (hk : k < candles.length) (hij : i < j) (hjk : j ≤ k)
    (htrig : (candles.get ⟨j, hj⟩).low ≤
      (newLongLevel lg leverage (candles.get ⟨i, hi⟩)).price) :
    newLongLevel lg leverage (candles.get ⟨i, hi⟩) ∉
      activeAfter lg leverage (candles.take (k + 1)) := by
  have htime_lt : ∀ (m : ℕ) (hm : m < candles.length), j ≤ m →
      (candles.get ⟨i, hi⟩).time < (candles.get ⟨m, hm⟩).time := by
    intro m hm hjm
    exact List.pairwise_iff_get.mp hsorted ⟨i, hi⟩ ⟨m, hm⟩
      (show i < m from lt_of_lt_of_le hij hjm)
  have hsplit : candles.take (k + 1) =
      candles.take j ++ (candles.drop j).take (k + 1 - j) := by
    have heq : j + (k + 1 - j) = k + 1 := by omega
    rw [← heq, List.take_add, heq]
  have hdropj : candles.drop j = candles.get ⟨j, hj⟩ :: candles.drop (j + 1) := by
    rw [List.drop_eq_getElem_cons hj]
    rfl
  have hseg : (candles.drop j).take (k + 1 - j) =
      candles.get ⟨j, hj⟩ :: (candles.drop (j + 1)).take (k - j) := by
    rw [hdropj]
    have heq : k + 1 - j = (k - j) + 1 := by omega
    rw [heq, List.take_succ_cons]
  rw [activeAfter, hsplit, activeFoldFrom_append, hseg]
  show newLongLevel lg leverage (candles.get ⟨i, hi⟩) ∉
    activeFoldFrom lg leverage
      (updateActive lg leverage (activeFoldFrom lg leverage [] (candles.take j))
        (candles.get ⟨j, hj⟩))
      ((candles.drop (j + 1)).take (k - j))
  apply not_mem_activeFoldFrom
  · apply not_mem_updateActive_of_triggered
    · rfl
    · exact htrig
    · show (candles.get ⟨i, hi⟩).time ≠ (candles.get ⟨j, hj⟩).time
      exact ne_of_lt (htime_lt j hj (le_refl j))
  · intro c hc
    have hcd : c ∈ candles.drop (j + 1) := List.take_subset _ _ hc
    have hlt : (candles.get ⟨i, hi⟩).time < c.time := by
      have hpair : candles.Pairwise (fun a b => a.time < b.time) := hsorted
      rw [← List.take_append_drop (j + 1) candles] at hpair
      have h3 := (List.pairwise_append.mp hpair).2.2
      have hmemtake : candles.get ⟨i, hi⟩ ∈ candles.take (j + 1) :=
        get_mem_take candles i (j + 1) hi (by omega)
      exact h3 _ hmemtake c hcd
    constructor
    · intro heq
      have : (candles.get ⟨i, hi⟩).time = c.time := by
        have h4 : (newLongLevel lg leverage (candles.get ⟨i, hi⟩)).creationTime =
            (newLongLevel lg leverage c).creationTime := by rw [heq]
        exact h4
      rw [this] at hlt
      exact lt_irrefl _ hlt
    · intro heq
      have : (candles.get ⟨i, hi⟩).time = c.time := by
        have h4 : (newLongLevel lg leverage (candles.get ⟨i, hi⟩)).creationTime =
            (newShortLevel lg leverage c).creationTime := by rw [heq]
        exact h4
      rw [this] at hlt
      exact lt_irrefl _ hlt

/-- C4 witness: candle 1's low (40) trades through the long level at 50
created by candle 0 with leverage 2, so after step 1 the level is gone. -/
theorem triggered_long_level_never_reappears_witness :
    ([⟨0, 101, 99, 100, 0⟩, ⟨1, 45, 40, 44, 0⟩] : List Candle).Pairwise
        (fun a b => a.time < b.time) ∧
      (([⟨0, 101, 99, 100, 0⟩, ⟨1, 45, 40, 44, 0⟩] : List Candle).get ⟨1, by decide⟩).low ≤
        (newLongLevel (fun _ => (1 : ℚ)) 2
          (([⟨0, 101, 99, 100, 0⟩, ⟨1, 45, 40, 44, 0⟩] : List Candle).get ⟨0, by decide⟩)).price ∧
      newLongLevel (fun _ => (1 : ℚ)) 2
          (([⟨0, 101, 99, 100, 0⟩, ⟨1, 45, 40, 44, 0⟩] : List Candle).get ⟨0, by decide⟩) ∉
        activeAfter (fun _ => (1 : ℚ)) 2
          (([⟨0, 101, 99, 100, 0⟩, ⟨1, 45, 40, 44, 0⟩] : List Candle).take 2) := by
  have hs : ([⟨0, 101, 99, 100, 0⟩, ⟨1, 45, 40, 44, 0⟩] : List Candle).Pairwise
      (fun a b => a.time < b.time) := by decide
  have ht : (([⟨0, 101, 99, 100, 0⟩, ⟨1, 45, 40, 44, 0⟩] : List Candle).get ⟨1, by decide⟩).low ≤
      (newLongLevel (fun _ => (1 : ℚ)) 2
        (([⟨0, 101, 99, 100, 0⟩, ⟨1, 45, 40, 44, 0⟩] : List Candle).get ⟨0, by decide⟩)).price := by
    norm_num [newLongLevel]
  exact ⟨hs, ht,
    triggered_long_level_never_reappears (fun _ => (1 : ℚ)) 2
      [⟨0, 101, 99, 100, 0⟩, ⟨1, 45, 40, 44, 0⟩] hs 0 1 1 (by decide) (by decide) (by decide)
      (by decide) (by decide) ht⟩

/-- `toFinset` of a mapped list is the image of the `toFinset`. -/
theorem toFinset_map_eq_image {α β : Type} [DecidableEq α] [DecidableEq β]
    (f : α → β) (l : List α) : (l.map f).toFinset = l.toFinset.image f := by
  induction l with
  | nil => simp
  | cons a t ih => simp [ih]

/-- `mapSet` inserts its key into the key set. -/
theorem mapSet_keys_toFinset (k v : ℚ) (m : List (ℚ × ℚ)) :
    ((mapSet k v m).map Prod.fst).toFinset = insert k (m.map Prod.fst).toFinset := by
  induction m with
  | nil => simp [mapSet]
  | cons p t ih =>
    rw [mapSet]
    by_cases h : p.1 = k
    · rw [if_pos h]
      simp [h]
    · rw [if_neg h]
      simp only [List.map_cons, List.toFinset_cons, ih]
      exact Finset.Insert.comm p.1 k _

/-- `mapSet` preserves distinctness of the keys. -/
theorem mapSet_keys_nodup (k v : ℚ) (m : List (ℚ × ℚ))
    (h : (m.map Prod.fst).Nodup) : ((mapSet k v m).map Prod.fst).Nodup := by
  induction m with
  | nil => simp [mapSet]
  | cons p t ih =>
    rw [mapSet]
    simp only [List.map_cons, List.nodup_cons] at h
    by_cases hpk : p.1 = k
    · rw [if_pos hpk]
      simp only [List.map_cons, List.nodup_cons]
      exact ⟨hpk ▸ h.1, h.2⟩
    · rw [if_neg hpk]
      simp only [List.map_cons, List.nodup_cons]
      constructor
      · intro hmem
        rw [← List.mem_toFinset, mapSet_keys_toFinset] at hmem
        rcases Finset.mem_insert.mp hmem with h2 | h2
        · exact hpk h2
        · exact h.1 (List.mem_toFinset.mp h2)
      · exact ih h.2

/-- Folding levels into a bucket map keeps the keys distinct and makes the key
set the starting key set united with the bucketed level prices. -/
theorem foldBuckets_keys (bucketSize : ℚ) (levels : List LiquidationLevel) :
    ∀ (m : List (ℚ × ℚ)), (m.map Prod.fst).Nodup →
      (((levels.foldl
          (fun m lvl =>
            let bp := bucketPrice bucketSize lvl.price
            mapSet bp (mapGet bp m + lvl.volume) m) m).map Prod.fst).Nodup ∧
        ((levels.foldl
            (fun m lvl =>
              let bp := bucketPrice bucketSize lvl.price
              mapSet bp (mapGet bp m + lvl.volume) m) m).map Prod.fst).toFinset =
          (m.map Prod.fst).toFinset ∪
            (levels.map (fun l => bucketPrice bucketSize l.price)).toFinset) := by
  induction levels with
  | nil => intro m hm; simp [hm]
  | cons lvl rest ih =>
    intro m hm
    simp only [List.foldl_cons]
    obtain ⟨h1, h2⟩ := ih
      (mapSet (bucketPrice bucketSize lvl.price)
        (mapGet (bucketPrice bucketSize lvl.price) m + lvl.volume) m)
      (mapSet_keys_nodup _ _ m hm)
    refine ⟨h1, ?_⟩
    rw [h2, mapSet_keys_toFinset]
    simp only [List.map_cons, List.toFinset_cons]
    rw [Finset.insert_union, Finset.union_insert]

/-- The bucket count of one aggregation pass is the number of distinct bucket
keys of the active level prices. -/
theorem buildBucketMap_length (bucketSize : ℚ) (levels : List LiquidationLevel) :
    (buildBucketMap bucketSize levels).length =
      ((levels.map (fun l => bucketPrice bucketSize l.price)).toFinset).card := by
  obtain ⟨hnd, hts⟩ := foldBuckets_keys bucketSize levels [] (by simp)
  rw [buildBucketMap, ← List.length_map _ Prod.fst, ← List.toFinset_card_of_nodup hnd,
    hts]
  simp

/-- Floor of a division by a positive integer equals the integer division of
the floor. -/
theorem floor_div_int_cast (x : ℚ) (n : ℤ) (hn : 0 < n) :
    ⌊x / (n : ℚ)⌋ = ⌊x⌋ / n := by
  have hn' : (0 : ℚ) < (n : ℚ) := by exact_mod_cast hn
  refine Int.floor_eq_iff.mpr ⟨?_, ?_⟩
  · rw [le_div_iff hn']
    have h1 : (⌊x⌋ / n) * n ≤ ⌊x⌋ := Int.ediv_mul_le ⌊x⌋ (by positivity)
    calc ((⌊x⌋ / n : ℤ) : ℚ) * (n : ℚ) = ((⌊x⌋ / n * n : ℤ) : ℚ) := by push_cast; ring
      _ ≤ ((⌊x⌋ : ℤ) : ℚ) := by exact_mod_cast h1
      _ ≤ x := Int.floor_le x
  · rw [div_lt_iff hn']
    have h2 : ⌊x⌋ < (⌊x⌋ / n + 1) * n := Int.lt_ediv_add_one_mul_self ⌊x⌋ hn
    have h3 : (⌊x⌋ + 1 : ℤ) ≤ (⌊x⌋ / n + 1) * n := Int.add_one_le_iff.mpr h2
    calc x < (⌊x⌋ : ℚ) + 1 := Int.lt_floor_add_one x
      _ ≤ (((⌊x⌋ / n + 1) * n : ℤ) : ℚ) := by exact_mod_cast h3
      _ = ((⌊x⌋ / n : ℤ) + 1 : ℚ) * (n : ℚ) := by push_cast; ring

/-- Bucketing at an integer multiple of the bucket size factors through
bucketing at the original size. -/
theorem bucketPrice_compose (b : ℚ) (hb : 0 < b) (m : ℕ) (hm : 0 < m) (p : ℚ) :
    bucketPrice ((m : ℚ) * b) p = bucketPrice ((m : ℚ) * b) (bucketPrice b p) := by
  have hm' : (0 : ℤ) < (m : ℤ) := by exact_mod_cast hm
  have hb' : b ≠ 0 := ne_of_gt hb
  have hcast : (((m : ℤ) : ℚ)) = ((m : ℚ)) := by push_cast; ring
  rw [bucketPrice, bucketPrice, bucketPrice]
  congr 2
  have h1 : p / ((m : ℚ) * b) = p / b / ((m : ℚ)) := by
    rw [div_div, mul_comm]
  have h2 : (⌊p / b⌋ : ℚ) * b / ((m : ℚ) * b) = (⌊p / b⌋ : ℚ) / ((m : ℚ)) := by
    field_simp
    ring
  rw [h1, h2, ← hcast, floor_div_int_cast (p / b) (m : ℤ) hm',
    floor_div_int_cast ((⌊p / b⌋ : ℚ)) (m : ℤ) hm', Int.floor_intCast]

/-- C7 amended: with a fixed candle series and leverage, enlarging the bucket
size to a positive integer multiple `m*b` of a positive bucket size `b` never
increases the number of distinct buckets of any snapshot (the claim fails for
general `b1 < b2`, whose grids need not be nested). -/
theorem bucket_count_monotone_on_multiples (lg : ℚ → ℚ) (leverage : ℚ)
    (candles : List Candle) (b : ℚ) (hb : 0 < b) (m : ℕ) (hm : 0 < m) (i : ℕ)
    (h1 : i < (calculateHeatmapData lg candles leverage ((m : ℚ) * b)).snapshots.length)
    (h2 : i < (calculateHeatmapData lg candles leverage b).snapshots.length) :
    ((calculateHeatmapData lg candles leverage ((m : ℚ) * b)).snapshots.get
        ⟨i, h1⟩).buckets.length ≤
      ((calculateHeatmapData lg candles leverage b).snapshots.get
        ⟨i, h2⟩).buckets.length := by
  have hi : i < candles.length := by
    have hlen := runFrom_length lg leverage ((m : ℚ) * b) [] 0 candles
    have h1' : i < (runFrom lg leverage ((m : ℚ) * b) [] 0 candles).1.length := h1
    rw [hlen] at h1'
    exact h1'
  have hg1 := runFrom_get lg leverage ((m : ℚ) * b) candles [] 0 i hi h1
  have hg2 := runFrom_get lg leverage b candles [] 0 i hi h2
  show ((runFrom lg leverage ((m : ℚ) * b) [] 0 candles).1.get ⟨i, h1⟩).buckets.length ≤
    ((runFrom lg leverage b [] 0 candles).1.get ⟨i, h2⟩).buckets.length
  rw [hg1, hg2]
  simp only [bucketsOfMap, List.length_map]
  rw [buildBucketMap_length, buildBucketMap_length]
  have hfun : (fun l : LiquidationLevel => bucketPrice ((m : ℚ) * b) l.price) =
      (fun q => bucketPrice ((m : ℚ) * b) q) ∘ (fun l : LiquidationLevel => bucketPrice b l.price) := by
    funext l
    exact bucketPrice_compose b hb m hm l.price
  rw [hfun, ← List.map_map, toFinset_map_eq_image]
  exact Finset.card_image_le

/-- C7 amended witness: doubling bucket size 2 to 4 on a concrete one-candle
run does not increase the bucket count. -/
theorem bucket_count_monotone_on_multiples_witness :
    (0 : ℚ) < 2 ∧ 0 < 2 ∧
      ((calculateHeatmapData (fun _ => (1 : ℚ)) [⟨0, 3, 3, 3, 0⟩] 6
          (((2 : ℕ) : ℚ) * 2)).snapshots.get ⟨0, by decide⟩).buckets.length ≤
        ((calculateHeatmapData (fun _ => (1 : ℚ)) [⟨0, 3, 3, 3, 0⟩] 6 2).snapshots.get
          ⟨0, by decide⟩).buckets.length :=
  ⟨by norm_num, by norm_num,
    bucket_count_monotone_on_multiples (fun _ => (1 : ℚ)) 6 [⟨0, 3, 3, 3, 0⟩] 2
      (by norm_num) 2 (by norm_num) 0 (by decide) (by decide)⟩

/-- C7 counterexample: with the single candle `{close: 3}` and leverage 6 the
active levels sit at prices `2.5` and `3.5`; bucket size `2` merges them into
one bucket while the larger bucket size `3` separates them into two, so
increasing `bucketSize` from 2 to 3 increases the distinct-bucket count. -/
theorem bucket_count_not_monotone :
    (2 : ℚ) < 3 ∧
      ((calculateHeatmapData (fun _ => (1 : ℚ)) [⟨0, 3, 3, 3, 0⟩] 6 2).snapshots.map
          (fun s => s.buckets.length) = [1]) ∧
      ((calculateHeatmapData (fun _ => (1 : ℚ)) [⟨0, 3, 3, 3, 0⟩] 6 3).snapshots.map
          (fun s => s.buckets.length) = [2]) := by
  refine ⟨by norm_num, ?_, ?_⟩ <;>
    norm_num [calculateHeatmapData, runFrom, updateActive, newLongLevel, newShortLevel,
      buildBucketMap, mapGet, mapSet, bucketsOfMap, foldMaxDensity, bucketPrice,
      levelSurvives]

end LiqMap
